import Mathlib

/-!
Shallow embedding of tss-lib's factorization proof (`crypto/facproof/proof.go`,
package `facproof`) and of Alice's MtA range proof (package `mta`,
`ProveRangeAlice` / `RangeProofAlice.Verify`), together with theorems settling
the specification claims about them.

Conventions used throughout:
* Go `*big.Int` values are `Option ℤ`; `none` is a nil pointer.
* A Go call that can panic, return an error, or succeed is a `GoResult`;
  `Option β` is used where only panics (never error returns) can occur, with
  `none` standing for a panic.
* The composition `common.RejectionSample(q, common.SHA512_256i(...))` is an
  external collaborator (spec section 4.1); it is modelled as an arbitrary
  deterministic function `eFn : ℤ → List ℤ → ℕ` from the curve order and the
  hashed integer sequence to the challenge.  The spec requires its output to
  lie in `[0, q)`; the codomain `ℕ` builds in non-negativity and the upper
  bound appears as a hypothesis where a claim needs it.
* The secure random sampler is external (spec section 1); the sampled values
  are explicit arguments of the `Prove` embeddings, and honest runs constrain
  them to the half-open intervals from which the code samples.
* An elliptic curve is consumed only through its group order `ec.Params().N`
  (spec section 1), so a curve is embedded as that order.
-/

namespace TssSpec

/-- Outcome of a Go call: the run can panic, return a non-nil error, or
succeed with a result. -/
inductive GoResult (α : Type) where
  | panics : GoResult α
  | errored : GoResult α
  | ok : α → GoResult α
  deriving DecidableEq

/-- True exactly when the call returned a result and a nil error. -/
def GoResult.isOk {α : Type} : GoResult α → Bool
  | .ok _ => true
  | _ => false

/-- Successful result of a call, if any. -/
def GoResult.toOption {α : Type} : GoResult α → Option α
  | .ok a => some a
  | _ => none

/-- Modelled from the spec: `common.IsInInterval x bound` decides membership of
the half-open interval `[0, bound)` (spec section 4.3, "Range/interval
membership checks"). -/
def IsInInterval (x bound : ℤ) : Bool :=
  decide (0 ≤ x) && decide (x < bound)

/-- Modular inverse as computed by `big.Int.ModInverse`, via the Bezout
coefficient; its exact value is only relevant on inputs that are coprime to
the modulus, which is the only situation in which the code uses it. -/
def modInv (n x : ℤ) : ℤ :=
  Int.gcdA x n % n

/-- Multiplication reduced by the Euclidean remainder, as performed by
`common.ModInt.Mul` (a `big.Int.Mul` followed by `big.Int.Mod`).  `big.Int.Mod`
panics when the modulus is zero, hence the `Option`. -/
def modMul (n a b : ℤ) : Option ℤ :=
  if n = 0 then none else some (a * b % n)

/-- Modular exponentiation as performed by `common.ModInt.Exp`
(`big.Int.Exp`): for a non-negative exponent the Euclidean remainder of the
power; for a negative exponent the power of the modular inverse of the base,
which exists only when the base is coprime to the modulus — otherwise
`big.Int.Exp` returns nil and the subsequent `Mul` panics (`none`).  With a
zero modulus the power is computed without reduction (and `x % 0 = x`). -/
def modExp (n x y : ℤ) : Option ℤ :=
  if 0 ≤ y then some (x ^ y.toNat % n)
  else if n = 0 then some 1
  else if Int.gcd x n = 1 then some (modInv n x ^ (-y).toNat % n)
  else none

/-- Fuel-driven upward search for the integer square root; `sqrtAux fuel n k`
returns the largest `j ≤ k + fuel` with `j * j ≤ n`, provided `k * k ≤ n`. -/
def sqrtAux : ℕ → ℕ → ℕ → ℕ
  | 0, _, k => k
  | fuel + 1, n, k => if (k + 1) * (k + 1) ≤ n then sqrtAux fuel n (k + 1) else k

/-- Floor of the square root of a natural number, by exhaustive search
(executable by the kernel; shown below to agree with `Nat.sqrt`). -/
def natSqrt (n : ℕ) : ℕ :=
  sqrtAux n n 0

/-- Floor square root of an integer, as computed by `big.Int.Sqrt` on its
non-negative domain (callers guard against negative arguments, on which
`big.Int.Sqrt` panics). -/
def intSqrt (x : ℤ) : ℤ :=
  (natSqrt x.toNat : ℤ)

/-- Minimal big-endian byte representation of a natural number, with an
explicit fuel argument (`n` itself is always enough fuel). -/
def natToBytesAux : ℕ → ℕ → List ℕ
  | 0, _ => []
  | _, 0 => []
  | fuel + 1, n => natToBytesAux fuel (n / 256) ++ [n % 256]

/-- Minimal big-endian byte representation of a natural number, as produced by
`big.Int.Bytes` for non-negative integers: no leading zero bytes, and the
number `0` is represented by the empty array. -/
def natToBytes (n : ℕ) : List ℕ :=
  natToBytesAux n n

/-- Byte representation of a `big.Int`, as produced by `big.Int.Bytes`: the
minimal big-endian encoding of the absolute value. -/
def intToBytes (x : ℤ) : List ℕ :=
  natToBytes x.natAbs

/-- Big-endian interpretation of a byte string, as performed by
`big.Int.SetBytes` (the result is always non-negative). -/
def setBytes (l : List ℕ) : ℕ :=
  l.foldl (fun acc b => acc * 256 + b) 0

/-- Integer decoded from a byte string by `big.Int.SetBytes`. -/
def setBytesZ (l : List ℕ) : ℤ :=
  (setBytes l : ℤ)

/-- Modelled from the spec: `common.NonEmptyMultiBytes bzs n` holds exactly
when there are exactly `n` byte parts and every part is non-empty (spec
section 6: "all 11 parts must be present and non-empty"). -/
def NonEmptyMultiBytes (bzs : List (List ℕ)) (n : ℕ) : Bool :=
  (bzs.length == n) && bzs.all (fun p => !p.isEmpty)

/-- A Pedersen-style double exponentiation `b1^e1 * b2^e2 mod n`, the shape of
every commitment computed by the two provers (`Exp`, `Exp`, then `Mul`, in
source order). -/
def commit (n b1 e1 b2 e2 : ℤ) : Option ℤ := do
  let u ← modExp n b1 e1
  let v ← modExp n b2 e2
  modMul n u v

/-! ## The factorization proof (`crypto/facproof/proof.go`) -/

/-- Number of byte parts of a serialized `ProofFac` (`ProofFacBytesParts`). -/
def ProofFacBytesParts : ℕ := 11

/-- Security parameter `l = 1 << 15` (`rangeParameter` in `proof.go`): it
limits the bits of either factor to `[1024 - l, 1024 + l]`. -/
def rangeParameter : ℤ := 2 ^ 15

/-- The factorization proof record: eleven `*big.Int` fields. -/
structure ProofFac where
  P : Option ℤ
  Q : Option ℤ
  A : Option ℤ
  B : Option ℤ
  T : Option ℤ
  Sigma : Option ℤ
  Z1 : Option ℤ
  Z2 : Option ℤ
  W1 : Option ℤ
  W2 : Option ℤ
  V : Option ℤ
  deriving DecidableEq

/-- The eleven field values of a structurally complete `ProofFac`. -/
structure FacVals where
  P : ℤ
  Q : ℤ
  A : ℤ
  B : ℤ
  T : ℤ
  Sigma : ℤ
  Z1 : ℤ
  Z2 : ℤ
  W1 : ℤ
  W2 : ℤ
  V : ℤ
  deriving DecidableEq

/-- Field values of a `ProofFac`, available exactly when no field is nil. -/
def ProofFac.vals (pf : ProofFac) : Option FacVals := do
  let p ← pf.P
  let q ← pf.Q
  let a ← pf.A
  let b ← pf.B
  let t ← pf.T
  let sg ← pf.Sigma
  let z1 ← pf.Z1
  let z2 ← pf.Z2
  let w1 ← pf.W1
  let w2 ← pf.W2
  let v ← pf.V
  some ⟨p, q, a, b, t, sg, z1, z2, w1, w2, v⟩

/-- A `ProofFac` with the given (non-nil) field values. -/
def FacVals.toProofFac (pv : FacVals) : ProofFac :=
  ⟨some pv.P, some pv.Q, some pv.A, some pv.B, some pv.T, some pv.Sigma,
   some pv.Z1, some pv.Z2, some pv.W1, some pv.W2, some pv.V⟩

/-- `ProofFac.ValidateBasic`: every one of the eleven fields is non-nil. -/
def ProofFac.ValidateBasic (pf : ProofFac) : Bool :=
  pf.vals.isSome

/-- `NewProof(ec, N0, NCap, s, t, N0p, N0q)` (lines 35-103 of `proof.go`).
The curve is its order `q`; `alpha, beta, mu, nu, sigma, r, x, y` are the
values produced by the internal random sampling (`alpha, beta` sampled from
`[0, l*q*sqrtN0)`, `mu, nu` from `[0, l*NCap)`, `sigma` from `[0, l*NCap*N0)`,
`r` from `[0, l*NCap*N0*q)` and coprime to that bound, `x, y` from
`[0, l*NCap*q)`).  A nil argument yields the constructor error; a negative
`N0` makes `big.Int.Sqrt` panic; commitments are computed mod `NCap` and the
responses with plain unreduced integer arithmetic. -/
def newProofCore (eFn : ℤ → List ℤ → ℕ)
    (q N0 NCap s t N0p N0q alpha beta mu nu sigma r x y : ℤ) : GoResult ProofFac :=
  if N0 < 0 then .panics
  else
    match
      (do
        let P ← commit NCap s N0p t mu
        let Q ← commit NCap s N0q t nu
        let A ← commit NCap s alpha t x
        let B ← commit NCap s beta t y
        let T ← commit NCap Q alpha t r
        let e : ℕ := eFn q [N0, NCap, s, t, P, Q, A, B, T, sigma]
        let z1 := (e : ℤ) * N0p + alpha
        let z2 := (e : ℤ) * N0q + beta
        let w1 := (e : ℤ) * mu + x
        let w2 := (e : ℤ) * nu + y
        let v := (e : ℤ) * (sigma - nu * N0p) + r
        some (⟨some P, some Q, some A, some B, some T, some sigma,
               some z1, some z2, some w1, some w2, some v⟩ : ProofFac)
        : Option ProofFac)
    with
    | some pf => .ok pf
    | none => .panics

/-- `NewProof(ec, N0, NCap, s, t, N0p, N0q)`: the nil-argument guard of lines
36-38 of `proof.go`, then the body `newProofCore`. -/
def NewProof (eFn : ℤ → List ℤ → ℕ) (ec N0O NCapO sO tO N0pO N0qO : Option ℤ)
    (alpha beta mu nu sigma r x y : ℤ) : GoResult ProofFac :=
  match ec, N0O, NCapO, sO, tO, N0pO, N0qO with
  | some q, some N0, some NCap, some s, some t, some N0p, some N0q =>
    newProofCore eFn q N0 NCap s t N0p N0q alpha beta mu nu sigma r x y
  | _, _, _, _, _, _, _ => .errored

/-- `NewProofFromBytes(bzs)` (lines 105-122 of `proof.go`): a format error
unless there are exactly 11 non-empty parts, otherwise each part is decoded as
an unsigned big-endian integer into the corresponding field, in the fixed
order `P, Q, A, B, T, Sigma, Z1, Z2, W1, W2, V`, with no further checks. -/
def NewProofFromBytes (bzs : List (List ℕ)) : GoResult ProofFac :=
  if NonEmptyMultiBytes bzs ProofFacBytesParts then
    match bzs with
    | [b0, b1, b2, b3, b4, b5, b6, b7, b8, b9, b10] =>
      .ok ⟨some (setBytesZ b0), some (setBytesZ b1), some (setBytesZ b2),
           some (setBytesZ b3), some (setBytesZ b4), some (setBytesZ b5),
           some (setBytesZ b6), some (setBytesZ b7), some (setBytesZ b8),
           some (setBytesZ b9), some (setBytesZ b10)⟩
    | _ => .errored
  else .errored

/-- `ProofFac.Bytes` (lines 250-264 of `proof.go`): the eleven byte arrays in
the fixed order `P, Q, A, B, T, Sigma, Z1, Z2, W1, W2, V`; dereferencing a nil
field panics. -/
def ProofFac.Bytes (pf : ProofFac) : Option (List (List ℕ)) :=
  pf.vals.map fun v =>
    [intToBytes v.P, intToBytes v.Q, intToBytes v.A, intToBytes v.B,
     intToBytes v.T, intToBytes v.Sigma, intToBytes v.Z1, intToBytes v.Z2,
     intToBytes v.W1, intToBytes v.W2, intToBytes v.V]

/-- The three algebraic equality checks of `ProofFac.Verify` (lines 197-233 of
`proof.go`), after recomputing the Fiat-Shamir challenge.  The exponents have
passed the interval checks by this point, so they are non-negative and taking
`Int.toNat` is faithful; `NCap` has passed the sign check, so `ModInt`
operations cannot panic here. -/
def facAlgebraic (eFn : ℤ → List ℤ → ℕ) (q N0 NCap s t : ℤ) (pv : FacVals) : Bool :=
  let e : ℕ := eFn q [N0, NCap, s, t, pv.P, pv.Q, pv.A, pv.B, pv.T, pv.Sigma]
  decide ((s ^ pv.Z1.toNat % NCap) * (t ^ pv.W1.toNat % NCap) % NCap
      = pv.A * (pv.P ^ e % NCap) % NCap) &&
    decide ((s ^ pv.Z2.toNat % NCap) * (t ^ pv.W2.toNat % NCap) % NCap
      = pv.B * (pv.Q ^ e % NCap) % NCap) &&
    (let R := (s ^ N0.toNat % NCap) * (t ^ pv.Sigma.toNat % NCap) % NCap
     decide ((pv.Q ^ pv.Z1.toNat % NCap) * (t ^ pv.V.toNat % NCap) % NCap
      = pv.T * (R ^ e % NCap) % NCap))

/-- Body of `ProofFac.Verify` after the structural guards (lines 135-233 of
`proof.go`): the interval checks, the five coprimality checks and the
algebraic checks, in the order of the source, with short-circuiting `&&`
mirroring the sequence of early `return false` statements. -/
def verifyCore (eFn : ℤ → List ℤ → ℕ) (q N0 NCap s t : ℤ) (pv : FacVals) : Bool :=
  let sqrtN0 := intSqrt N0
  let leSqrtN0 := rangeParameter * q * sqrtN0
  let lNCap := rangeParameter * NCap
  let lN0NCap := lNCap * N0
  let leN0NCap2 := 2 * (lN0NCap * q)
  let leNCap2 := 2 * (lNCap * q)
  IsInInterval pv.P NCap && IsInInterval pv.Q NCap && IsInInterval pv.A NCap &&
    IsInInterval pv.B NCap && IsInInterval pv.T NCap &&
    IsInInterval pv.Sigma lN0NCap &&
    decide (Int.gcd pv.P NCap = 1) && decide (Int.gcd pv.Q NCap = 1) &&
    decide (Int.gcd pv.A NCap = 1) && decide (Int.gcd pv.B NCap = 1) &&
    decide (Int.gcd pv.T NCap = 1) &&
    IsInInterval pv.W1 leNCap2 && IsInInterval pv.W2 leNCap2 &&
    IsInInterval pv.V leN0NCap2 &&
    IsInInterval pv.Z1 leSqrtN0 && IsInInterval pv.Z2 leSqrtN0 &&
    facAlgebraic eFn q N0 NCap s t pv

/-- `ProofFac.Verify(ec, N0, NCap, s, t)` (lines 124-234 of `proof.go`): false
on a nil proof, a proof failing `ValidateBasic`, a nil public input, or a
non-positive `N0` or `NCap`; otherwise the interval, coprimality and algebraic
checks of `verifyCore`.  All guards are pure comparisons, so verification is
total. -/
def ProofFac.Verify (eFn : ℤ → List ℤ → ℕ) (pfO : Option ProofFac)
    (ec N0O NCapO sO tO : Option ℤ) : Bool :=
  match pfO, ec, N0O, NCapO, sO, tO with
  | some pf, some q, some N0, some NCap, some s, some t =>
    match pf.vals with
    | some pv =>
      if N0 ≤ 0 then false
      else if NCap ≤ 0 then false
      else verifyCore eFn q N0 NCap s t pv
    | none => false
  | _, _, _, _, _, _ => false

/-! ## Alice's range proof (`mta` package) -/

/-- Modelled from the spec: Paillier public-key material, "consumed as opaque
integers": the modulus `N` and the generator `Gamma`; `NSquare()` is `N * N`
and `AsInts()` lists the key's integers for hashing (spec sections 1 and 4.2:
the challenge is derived from "(pk-as-integers, c, Z, U, W)"). -/
structure PaillierPK where
  N : ℤ
  Gamma : ℤ
  deriving DecidableEq

/-- The key as an integer sequence, for the Fiat-Shamir hash. -/
def PaillierPK.AsInts (pk : PaillierPK) : List ℤ :=
  [pk.N, pk.Gamma]

/-- Alice's range proof record: six `*big.Int` fields. -/
structure RangeProofAlice where
  Z : Option ℤ
  U : Option ℤ
  W : Option ℤ
  S : Option ℤ
  S1 : Option ℤ
  S2 : Option ℤ
  deriving DecidableEq

/-- True exactly when all six fields are non-nil. -/
def RangeProofAlice.allFieldsSome (pf : RangeProofAlice) : Bool :=
  pf.Z.isSome && pf.U.isSome && pf.W.isSome && pf.S.isSome &&
    pf.S1.isSome && pf.S2.isSome

/-- `ProveRangeAlice(pk, c, NTilde, h1, h2, m, r)` (lines 21-73 of the `mta`
source).  The global curve order is `q`; `alpha, beta, gamma, rho` are the
values produced by the internal sampling (`alpha` from `[0, q^3)`, `beta` from
`[0, pk.N)` coprime to `pk.N`, `gamma` from `[0, q^3 * NTilde)`, `rho` from
`[0, q * NTilde)`).  The function performs no nil checks: every nil argument
leads to a nil dereference (in the bound computations, the sampling, the
modular arithmetic or the hash), hence `none`. -/
def ProveRangeAlice (q : ℤ) (eFn : ℤ → List ℤ → ℕ) (pkO : Option PaillierPK)
    (cO NTildeO h1O h2O mO rO : Option ℤ)
    (alpha beta gamma rho : ℤ) : Option RangeProofAlice :=
  match pkO, cO, NTildeO, h1O, h2O, mO, rO with
  | some pk, some c, some NTilde, some h1, some h2, some m, some r => do
    let z ← commit NTilde h1 m h2 rho
    let N2 := pk.N * pk.N
    let u ← commit N2 pk.Gamma alpha beta pk.N
    let w ← commit NTilde h1 alpha h2 gamma
    let e : ℕ := eFn q (pk.AsInts ++ [c, z, u, w])
    let s ← modMul pk.N (← modExp pk.N r (e : ℤ)) beta
    let s1 := (e : ℤ) * m + alpha
    let s2 := (e : ℤ) * rho + gamma
    some ⟨some z, some u, some w, some s, some s1, some s2⟩
  | _, _, _, _, _, _, _ => none

/-- Value `Gamma^s1 * S^N * c^(-e) mod N^2` of the first equality check
(step 4 of the verifier, lines 100-112 of the `mta` source). -/
def aliceCheckCiphertext (pkN pkGamma c sv s1 : ℤ) (e : ℕ) : Option ℤ := do
  let N2 := pkN * pkN
  let cExpMinusE ← modExp N2 c (0 - (e : ℤ))
  let sExpN ← modExp N2 sv pkN
  let gammaExpS1 ← modExp N2 pkGamma s1
  let prod1 ← modMul N2 gammaExpS1 sExpN
  modMul N2 prod1 cExpMinusE

/-- Value `h1^s1 * h2^s2 * Z^(-e) mod NTilde` of the second equality check
(step 5 of the verifier, lines 114-126). -/
def aliceCheckCommitment (NTilde h1 h2 z s1 s2 : ℤ) (e : ℕ) : Option ℤ := do
  let h1ExpS1 ← modExp NTilde h1 s1
  let h2ExpS2 ← modExp NTilde h2 s2
  let zExpMinusE ← modExp NTilde z (0 - (e : ℤ))
  let prod3 ← modMul NTilde h1ExpS1 h2ExpS2
  modMul NTilde prod3 zExpMinusE

/-- The part of `RangeProofAlice.Verify` that follows the `S1` bound check
(lines 90-127 of the `mta` source): recompute the challenge from
`(pk-as-integers, c, Z, U, W)`, then the two algebraic equality checks, first
modulo `N^2` and then modulo `NTilde`.  `S2` is only dereferenced when the
first equality check succeeds, matching the early `return false`. -/
def aliceAlgebraicChecks (q : ℤ) (eFn : ℤ → List ℤ → ℕ) (pf : RangeProofAlice)
    (pk : PaillierPK) (NTilde h1 h2 c : ℤ) (s1 : ℤ) : Option Bool := do
  let z ← pf.Z
  let u ← pf.U
  let w ← pf.W
  let e : ℕ := eFn q (pk.AsInts ++ [c, z, u, w])
  let sv ← pf.S
  let prod2 ← aliceCheckCiphertext pk.N pk.Gamma c sv s1 e
  if u ≠ prod2 then some false
  else do
    let s2 ← pf.S2
    let prod4 ← aliceCheckCommitment NTilde h1 h2 z s1 s2 e
    if w ≠ prod4 then some false else some true

/-- `RangeProofAlice.Verify(pk, NTilde, h1, h2, c)` (lines 75-128 of the `mta`
source): false when the proof or any public input is nil; then the `S1 > q^3`
bound check, dereferencing `S1` (a nil `S1` panics); then the challenge
recomputation and the two algebraic equality checks. -/
def RangeProofAlice.Verify (q : ℤ) (eFn : ℤ → List ℤ → ℕ)
    (pfO : Option RangeProofAlice) (pkO : Option PaillierPK)
    (NTildeO h1O h2O cO : Option ℤ) : Option Bool :=
  match pfO, pkO, NTildeO, h1O, h2O, cO with
  | some pf, some pk, some NTilde, some h1, some h2, some c => do
    let q3 := q * (q * q)
    let s1 ← pf.S1
    if q3 < s1 then some false
    else aliceAlgebraicChecks q eFn pf pk NTilde h1 h2 c s1
  | _, _, _, _, _, _ => some false

/-! ## Fixed challenge functions used for concrete instances -/

/-- Challenge function that always answers `0` (a valid challenge whenever
`0 < q`). -/
def eFnZero : ℤ → List ℤ → ℕ := fun _ _ => 0

/-- Challenge function that always answers `q - 1` (the largest valid
challenge whenever `0 < q`). -/
def eFnMax : ℤ → List ℤ → ℕ := fun q _ => (q - 1).toNat

/-! ## Claim C5: structural guards of `ProofFac.Verify` -/

/-- Claim C5: `ProofFac.Verify` short-circuits to false, without raising,
whenever the proof is nil, any of its eleven fields is nil (`ValidateBasic`
fails), any public input (`ec, N0, NCap, s, t`) is nil, `N0 ≤ 0`, or
`NCap ≤ 0`.  Totality (never raising) is inherent: the embedding of `Verify`
returns `Bool`, every guard being a pure comparison. -/
theorem claim_C5 (eFn : ℤ → List ℤ → ℕ) (pfO : Option ProofFac)
    (ec N0O NCapO sO tO : Option ℤ)
    (h : pfO = none ∨ (∃ pf, pfO = some pf ∧ pf.ValidateBasic = false) ∨
      ec = none ∨ N0O = none ∨ NCapO = none ∨ sO = none ∨ tO = none ∨
      (∃ n, N0O = some n ∧ n ≤ 0) ∨ (∃ n, NCapO = some n ∧ n ≤ 0)) :
    ProofFac.Verify eFn pfO ec N0O NCapO sO tO = false := by
  unfold ProofFac.Verify
  split
  next pf q N0 NCap s t =>
    rcases hv : pf.vals with _ | pv
    · rfl
    · rcases h with h | ⟨pf2, hpf2, hvb⟩ | h | h | h | h | h | ⟨n, hn, hle⟩ | ⟨n, hn, hle⟩ <;>
        first
        | exact Option.noConfusion h
        | skip
      · rw [show pf2 = pf from (Option.some.inj hpf2).symm] at hvb
        unfold ProofFac.ValidateBasic at hvb
        rw [hv] at hvb
        simp at hvb
      · obtain rfl : n = N0 := (Option.some.inj hn).symm
        simp [hle]
      · obtain rfl : n = NCap := (Option.some.inj hn).symm
        simp [hle]
  next => rfl

/-- Witness for C5 at a concrete input: a nil proof yields false. -/
theorem claim_C5_witness :
    ProofFac.Verify eFnZero none (some 1) (some 1) (some 1) (some 1) (some 1) = false :=
  claim_C5 eFnZero none (some 1) (some 1) (some 1) (some 1) (some 1) (Or.inl rfl)

/-! ## Claim C2: nil handling of `RangeProofAlice.Verify` -/

/-- Claim C2, amended: `RangeProofAlice.Verify` returns false, without
raising, whenever the proof itself or any of the five public inputs is nil.
The original claim also asserted this for a nil proof *field*; the
counterexample below shows that a nil field is dereferenced instead. -/
theorem claim_C2 (q : ℤ) (eFn : ℤ → List ℤ → ℕ) (pfO : Option RangeProofAlice)
    (pkO : Option PaillierPK) (NTildeO h1O h2O cO : Option ℤ)
    (h : pfO = none ∨ pkO = none ∨ NTildeO = none ∨ h1O = none ∨
      h2O = none ∨ cO = none) :
    RangeProofAlice.Verify q eFn pfO pkO NTildeO h1O h2O cO = some false := by
  unfold RangeProofAlice.Verify
  split
  next pf pk NTilde h1 h2 c =>
    rcases h with h | h | h | h | h | h <;> exact Option.noConfusion h
  next => rfl

/-- Witness for C2 at a concrete input: a nil proof yields `some false`. -/
theorem claim_C2_witness :
    RangeProofAlice.Verify 1 eFnZero none (some ⟨1, 1⟩) (some 1) (some 1)
      (some 1) (some 1) = some false :=
  claim_C2 1 eFnZero none (some ⟨1, 1⟩) (some 1) (some 1) (some 1) (some 1)
    (Or.inl rfl)

/-- Counterexample to C2 as stated: with every input non-nil but the proof
field `S1` nil, `Verify` dereferences the nil `S1` in the bound check
`pf.S1.Cmp(q3)` and panics (`none`), rather than returning false — the code
has no `ValidateBasic`-style guard for the proof fields. -/
theorem claim_C2_counterexample :
    RangeProofAlice.Verify 1 eFnZero
        (some ⟨some 0, some 0, some 0, some 0, none, some 0⟩)
        (some ⟨1, 1⟩) (some 1) (some 1) (some 1) (some 1) = none ∧
      RangeProofAlice.Verify 1 eFnZero
        (some ⟨some 0, some 0, some 0, some 0, none, some 0⟩)
        (some ⟨1, 1⟩) (some 1) (some 1) (some 1) (some 1) ≠ some false := by
  constructor <;> decide

/-! ## Claims C4 and C9: the `S1` bound check of `RangeProofAlice.Verify` -/

/-- Claim C4: with every value non-nil, `Verify` returns false whenever
`S1 > q^3`, before and therefore independently of the algebraic equality
checks; and a proof with `S1 = q^3` is not rejected by the bound check — its
outcome is that of the challenge recomputation and the equality checks. -/
theorem claim_C4 (q : ℤ) (eFn : ℤ → List ℤ → ℕ) (z u w sv s1 s2 : ℤ)
    (pk : PaillierPK) (NTilde h1 h2 c : ℤ) :
    (q * (q * q) < s1 →
      RangeProofAlice.Verify q eFn
        (some ⟨some z, some u, some w, some sv, some s1, some s2⟩)
        (some pk) (some NTilde) (some h1) (some h2) (some c) = some false) ∧
    (s1 = q * (q * q) →
      RangeProofAlice.Verify q eFn
        (some ⟨some z, some u, some w, some sv, some s1, some s2⟩)
        (some pk) (some NTilde) (some h1) (some h2) (some c)
        = aliceAlgebraicChecks q eFn ⟨some z, some u, some w, some sv, some s1, some s2⟩
            pk NTilde h1 h2 c s1) := by
  constructor
  · intro hgt
    show (if q * (q * q) < s1 then some false
      else aliceAlgebraicChecks q eFn
        ⟨some z, some u, some w, some sv, some s1, some s2⟩ pk NTilde h1 h2 c s1)
      = some false
    rw [if_pos hgt]
  · intro heq
    show (if q * (q * q) < s1 then some false
      else aliceAlgebraicChecks q eFn
        ⟨some z, some u, some w, some sv, some s1, some s2⟩ pk NTilde h1 h2 c s1)
      = aliceAlgebraicChecks q eFn
          ⟨some z, some u, some w, some sv, some s1, some s2⟩ pk NTilde h1 h2 c s1
    rw [if_neg (by rw [heq]; exact lt_irrefl _)]

/-- Witness for C4 at a concrete input: `q = 1`, `S1 = 2 > q^3` is rejected. -/
theorem claim_C4_witness :
    RangeProofAlice.Verify 1 eFnZero
      (some ⟨some 0, some 0, some 0, some 0, some 2, some 0⟩)
      (some ⟨1, 1⟩) (some 1) (some 1) (some 1) (some 1) = some false :=
  (claim_C4 1 eFnZero 0 0 0 0 2 0 ⟨1, 1⟩ 1 1 1 1).1 (by decide)

/-- Claim C9: the `S1` bound check is one-sided — for every proof with
`S1 ≤ q^3` (in particular any negative `S1`) the bound check passes and the
verification outcome is exactly that of the challenge recomputation and the
two algebraic equality checks. -/
theorem claim_C9 (q : ℤ) (eFn : ℤ → List ℤ → ℕ) (z u w sv s1 s2 : ℤ)
    (pk : PaillierPK) (NTilde h1 h2 c : ℤ) (h : s1 ≤ q * (q * q)) :
    RangeProofAlice.Verify q eFn
        (some ⟨some z, some u, some w, some sv, some s1, some s2⟩)
        (some pk) (some NTilde) (some h1) (some h2) (some c)
      = aliceAlgebraicChecks q eFn ⟨some z, some u, some w, some sv, some s1, some s2⟩
          pk NTilde h1 h2 c s1 := by
  show (if q * (q * q) < s1 then some false
    else aliceAlgebraicChecks q eFn
      ⟨some z, some u, some w, some sv, some s1, some s2⟩ pk NTilde h1 h2 c s1)
    = aliceAlgebraicChecks q eFn
        ⟨some z, some u, some w, some sv, some s1, some s2⟩ pk NTilde h1 h2 c s1
  rw [if_neg (not_lt.mpr h)]

/-- Witness for C9 at a concrete input with `S1 = 0 ≤ q^3`: the bound check
passes and the outcome is that of the algebraic checks, which evaluates to
`some true` here. -/
theorem claim_C9_witness :
    RangeProofAlice.Verify 1 eFnZero
      (some ⟨some 0, some 0, some 0, some 0, some 0, some 0⟩)
      (some ⟨1, 1⟩) (some 1) (some 1) (some 1) (some 1) = some true :=
  (claim_C9 1 eFnZero 0 0 0 0 0 0 ⟨1, 1⟩ 1 1 1 1 (by decide)).trans (by decide)

/-! ## Helper lemmas for evaluating the provers -/

/-- With a non-negative exponent, `modExp` is the reduced power. -/
theorem modExp_of_nonneg (n x : ℤ) {y : ℤ} (hy : 0 ≤ y) :
    modExp n x y = some (x ^ y.toNat % n) := by
  unfold modExp
  rw [if_pos hy]

/-- With a non-zero modulus and non-negative exponents, a commitment
evaluates to the reduced product of reduced powers. -/
theorem commit_eval {n : ℤ} (b1 b2 : ℤ) {e1 e2 : ℤ} (hn : ¬n = 0)
    (h1 : 0 ≤ e1) (h2 : 0 ≤ e2) :
    commit n b1 e1 b2 e2
      = some ((b1 ^ e1.toNat % n) * (b2 ^ e2.toNat % n) % n) := by
  unfold commit
  rw [modExp_of_nonneg n b1 h1, modExp_of_nonneg n b2 h2]
  simp only [Option.bind_eq_bind, Option.some_bind]
  unfold modMul
  rw [if_neg hn]

/-! ## Claim C10: `NewProof` validates only non-nilness -/

/-- Claim C10, amended: on non-nil arguments that lie in the numeric domain
the surrounding protocol supplies (a non-negative modulus and witness factors,
a positive `NCap`, non-negative sampled values), `NewProof` returns a proof
and a nil error; no hypothesis relates `N0` to `N0p * N0q` and none bounds the
bit-length of `N0p` or `N0q` — the witness relation is never checked at
construction time.  (The original claim, quantified over arbitrary non-nil
arguments, fails: a negative `N0` panics in `big.Int.Sqrt`, see the
counterexample.) -/
theorem claim_C10 (eFn : ℤ → List ℤ → ℕ)
    (q N0 NCap s t N0p N0q alpha beta mu nu sigma r x y : ℤ)
    (hN0 : 0 ≤ N0) (hNCap : 1 ≤ NCap) (hN0p : 0 ≤ N0p) (hN0q : 0 ≤ N0q)
    (halpha : 0 ≤ alpha) (hbeta : 0 ≤ beta) (hmu : 0 ≤ mu) (hnu : 0 ≤ nu)
    (hr : 0 ≤ r) (hx : 0 ≤ x) (hy : 0 ≤ y) :
    ∃ pf, NewProof eFn (some q) (some N0) (some NCap) (some s) (some t)
        (some N0p) (some N0q) alpha beta mu nu sigma r x y = .ok pf := by
  have hn : ¬NCap = 0 := by omega
  show ∃ pf, newProofCore eFn q N0 NCap s t N0p N0q alpha beta mu nu sigma r x y
    = .ok pf
  unfold newProofCore
  rw [if_neg (not_lt.mpr hN0)]
  simp only [commit_eval _ _ hn hN0p hmu, commit_eval _ _ hn hN0q hnu,
    commit_eval _ _ hn halpha hx, commit_eval _ _ hn hbeta hy,
    commit_eval _ _ hn halpha hr, Option.bind_eq_bind, Option.some_bind]
  exact ⟨_, rfl⟩

/-- Witness for C10 at a concrete input in which `N0 = 5` is not the product
of the witness factors `N0p = N0q = 2`: construction still succeeds. -/
theorem claim_C10_witness :
    (∃ pf, NewProof eFnZero (some 1) (some 5) (some 1) (some 1) (some 1)
        (some 2) (some 2) 0 0 0 0 0 1 0 0 = .ok pf) ∧ (5 : ℤ) ≠ 2 * 2 :=
  ⟨claim_C10 eFnZero 1 5 1 1 1 2 2 0 0 0 0 0 1 0 0 (by norm_num) (by norm_num)
      (by norm_num) (by norm_num) (by norm_num) (by norm_num) (by norm_num)
      (by norm_num) (by norm_num) (by norm_num) (by norm_num),
    by norm_num⟩

/-- Counterexample to C10 as stated: all seven arguments are non-nil, yet
with `N0 = -1` the constructor does not return a proof and a nil error — it
panics, because `big.Int.Sqrt` panics on a negative argument. -/
theorem claim_C10_counterexample :
    NewProof eFnZero (some 1) (some (-1)) (some 1) (some 1) (some 1) (some 1)
        (some 1) 0 0 0 0 0 1 0 0 = .panics ∧
      (NewProof eFnZero (some 1) (some (-1)) (some 1) (some 1) (some 1)
        (some 1) (some 1) 0 0 0 0 0 1 0 0).isOk = false := by
  constructor <;> decide

/-! ## Claim C8: structural completeness of returned proofs -/

/-- Claim C8: every proof value actually returned to the caller is
structurally complete — `ProveRangeAlice` only ever returns a range proof
with all six fields non-nil, and every `ProofFac` returned without error by
`NewProof` or by `NewProofFromBytes` passes `ValidateBasic`. -/
theorem claim_C8 :
    (∀ (q : ℤ) (eFn : ℤ → List ℤ → ℕ) (pkO : Option PaillierPK)
        (cO NTildeO h1O h2O mO rO : Option ℤ) (alpha beta gamma rho : ℤ)
        (pf : RangeProofAlice),
      ProveRangeAlice q eFn pkO cO NTildeO h1O h2O mO rO alpha beta gamma rho
          = some pf →
      pf.allFieldsSome = true) ∧
    (∀ (eFn : ℤ → List ℤ → ℕ) (ec N0O NCapO sO tO N0pO N0qO : Option ℤ)
        (alpha beta mu nu sigma r x y : ℤ) (pf : ProofFac),
      NewProof eFn ec N0O NCapO sO tO N0pO N0qO alpha beta mu nu sigma r x y
          = .ok pf →
      pf.ValidateBasic = true) ∧
    (∀ (bzs : List (List ℕ)) (pf : ProofFac),
      NewProofFromBytes bzs = .ok pf → pf.ValidateBasic = true) := by
  refine ⟨?_, ?_, ?_⟩
  · intro q eFn pkO cO NTildeO h1O h2O mO rO alpha beta gamma rho pf h
    unfold ProveRangeAlice at h
    split at h
    next pk c NTilde h1 h2 m r =>
      simp only [Option.bind_eq_bind, Option.bind_eq_some] at h
      obtain ⟨z, -, u, -, w, -, a, -, s, -, h⟩ := h
      obtain rfl : _ = pf := Option.some.inj h
      rfl
    next => exact Option.noConfusion h
  · intro eFn ec N0O NCapO sO tO N0pO N0qO alpha beta mu nu sigma r x y pf h
    unfold NewProof at h
    split at h
    next q N0 NCap s t N0p N0q =>
      unfold newProofCore at h
      by_cases hneg : N0 < 0
      · rw [if_pos hneg] at h
        exact GoResult.noConfusion h
      · rw [if_neg hneg] at h
        split at h
        next pf2 hchain =>
          obtain rfl : pf2 = pf := by cases h; rfl
          simp only [Option.bind_eq_bind, Option.bind_eq_some] at hchain
          obtain ⟨P, -, Q, -, A, -, B, -, T, -, hchain⟩ := hchain
          obtain rfl : _ = pf2 := Option.some.inj hchain
          rfl
        next => exact GoResult.noConfusion h
    next => exact GoResult.noConfusion h
  · intro bzs pf h
    unfold NewProofFromBytes at h
    by_cases hok : NonEmptyMultiBytes bzs ProofFacBytesParts = true
    · rw [if_pos hok] at h
      split at h
      next => exact (GoResult.ok.inj h).symm ▸ rfl
      next => exact GoResult.noConfusion h
    · rw [if_neg hok] at h
      exact GoResult.noConfusion h

/-- Witness for C8 at concrete inputs: applying each of the three parts. -/
theorem claim_C8_witness :
    ((ProveRangeAlice 1 eFnZero (some ⟨1, 1⟩) (some 1) (some 1) (some 1)
        (some 1) (some 1) (some 1) 0 0 0 0).map RangeProofAlice.allFieldsSome
      = some true) ∧
    ((NewProof eFnZero (some 1) (some 1) (some 1) (some 1) (some 1) (some 1)
        (some 1) 0 0 0 0 0 0 0 0).toOption.map ProofFac.ValidateBasic
      = some true) ∧
    ((NewProofFromBytes [[1], [1], [1], [1], [1], [1], [1], [1], [1], [1],
        [1]]).toOption.map ProofFac.ValidateBasic = some true) := by
  refine ⟨?_, ?_, ?_⟩
  · rcases hp : ProveRangeAlice 1 eFnZero (some ⟨1, 1⟩) (some 1) (some 1)
        (some 1) (some 1) (some 1) (some 1) 0 0 0 0 with _ | pf
    · exact absurd hp (by decide)
    · exact congrArg some (claim_C8.1 1 eFnZero (some ⟨1, 1⟩) (some 1) (some 1)
        (some 1) (some 1) (some 1) (some 1) 0 0 0 0 pf hp)
  · rcases hp : NewProof eFnZero (some 1) (some 1) (some 1) (some 1) (some 1)
        (some 1) (some 1) 0 0 0 0 0 0 0 0 with _ | _ | pf
    · exact absurd hp (by decide)
    · exact absurd hp (by decide)
    · exact congrArg some (claim_C8.2.1 eFnZero (some 1) (some 1) (some 1)
        (some 1) (some 1) (some 1) (some 1) 0 0 0 0 0 0 0 0 pf hp)
  · rcases hp : NewProofFromBytes [[1], [1], [1], [1], [1], [1], [1], [1],
        [1], [1], [1]] with _ | _ | pf
    · exact absurd hp (by decide)
    · exact absurd hp (by decide)
    · exact congrArg some (claim_C8.2.2 _ pf hp)

/-! ## Properties of the byte encoding and of the square root -/

/-- Appending one byte multiplies the decoded value by 256 and adds it. -/
theorem setBytes_append_singleton (l : List ℕ) (b : ℕ) :
    setBytes (l ++ [b]) = setBytes l * 256 + b := by
  simp [setBytes, List.foldl_append]

/-- With enough fuel, decoding inverts the byte encoding. -/
theorem natToBytesAux_eval (fuel : ℕ) : ∀ n : ℕ, n ≤ fuel →
    setBytes (natToBytesAux fuel n) = n := by
  induction fuel with
  | zero =>
    intro n h
    obtain rfl : n = 0 := Nat.le_zero.mp h
    rfl
  | succ f ih =>
    intro n h
    cases n with
    | zero => rfl
    | succ m =>
      rw [show natToBytesAux (f + 1) (m + 1)
          = natToBytesAux f ((m + 1) / 256) ++ [(m + 1) % 256] from rfl]
      rw [setBytes_append_singleton, ih _ (by omega : (m + 1) / 256 ≤ f)]
      omega

/-- Decoding inverts the minimal big-endian encoding. -/
theorem setBytes_natToBytes (n : ℕ) : setBytes (natToBytes n) = n :=
  natToBytesAux_eval n n le_rfl

/-- The encoding of a positive number is non-empty. -/
theorem natToBytes_ne_nil {n : ℕ} (h : 0 < n) : natToBytes n ≠ [] := by
  unfold natToBytes
  cases n with
  | zero => exact absurd h (by decide)
  | succ m =>
    rw [show natToBytesAux (m + 1) (m + 1)
        = natToBytesAux m ((m + 1) / 256) ++ [(m + 1) % 256] from rfl]
    simp

/-- Decoding inverts the encoding of non-negative integers. -/
theorem setBytesZ_intToBytes {x : ℤ} (h : 0 ≤ x) :
    setBytesZ (intToBytes x) = x := by
  unfold setBytesZ intToBytes
  rw [setBytes_natToBytes]
  exact Int.natAbs_of_nonneg h

/-- Characterization of the byte-parts precondition. -/
theorem nonEmptyMultiBytes_iff (bzs : List (List ℕ)) (n : ℕ) :
    NonEmptyMultiBytes bzs n = true ↔ bzs.length = n ∧ ¬([] ∈ bzs) := by
  constructor
  · intro h
    simp only [NonEmptyMultiBytes, Bool.and_eq_true, beq_iff_eq,
      List.all_eq_true] at h
    refine ⟨h.1, fun hmem => ?_⟩
    have := h.2 [] hmem
    simp at this
  · intro ⟨hlen, hmem⟩
    simp only [NonEmptyMultiBytes, Bool.and_eq_true, beq_iff_eq,
      List.all_eq_true]
    refine ⟨hlen, fun p hp => ?_⟩
    have : p ≠ [] := fun he => hmem (he ▸ hp)
    simp [List.isEmpty_iff, this]

/-- A list of length eleven is an eleven-element literal. -/
theorem list_shape_eleven {α : Type} (l : List α) (h : l.length = 11) :
    ∃ a0 a1 a2 a3 a4 a5 a6 a7 a8 a9 a10,
      l = [a0, a1, a2, a3, a4, a5, a6, a7, a8, a9, a10] := by
  rcases l with _ | ⟨a0, l⟩
  · simp at h
  rcases l with _ | ⟨a1, l⟩
  · simp at h
  rcases l with _ | ⟨a2, l⟩
  · simp at h
  rcases l with _ | ⟨a3, l⟩
  · simp at h
  rcases l with _ | ⟨a4, l⟩
  · simp at h
  rcases l with _ | ⟨a5, l⟩
  · simp at h
  rcases l with _ | ⟨a6, l⟩
  · simp at h
  rcases l with _ | ⟨a7, l⟩
  · simp at h
  rcases l with _ | ⟨a8, l⟩
  · simp at h
  rcases l with _ | ⟨a9, l⟩
  · simp at h
  rcases l with _ | ⟨a10, l⟩
  · simp at h
  rcases l with _ | ⟨a11, l⟩
  · exact ⟨a0, a1, a2, a3, a4, a5, a6, a7, a8, a9, a10, rfl⟩
  · simp only [List.length_cons] at h
    omega

/-- The square-root search satisfies the floor-square-root specification. -/
theorem sqrtAux_spec (fuel : ℕ) : ∀ k n : ℕ, k * k ≤ n →
    n < (k + fuel + 1) * (k + fuel + 1) →
    sqrtAux fuel n k * sqrtAux fuel n k ≤ n ∧
      n < (sqrtAux fuel n k + 1) * (sqrtAux fuel n k + 1) := by
  induction fuel with
  | zero =>
    intro k n hk hend
    exact ⟨hk, by simpa using hend⟩
  | succ f ih =>
    intro k n hk hend
    rw [show sqrtAux (f + 1) n k
        = (if (k + 1) * (k + 1) ≤ n then sqrtAux f n (k + 1) else k) from rfl]
    by_cases hc : (k + 1) * (k + 1) ≤ n
    · rw [if_pos hc]
      refine ih (k + 1) n hc ?_
      have : k + 1 + f + 1 = k + (f + 1) + 1 := by omega
      rw [this]
      exact hend
    · rw [if_neg hc]
      exact ⟨hk, lt_of_not_ge hc⟩

/-- The executable square root agrees with `Nat.sqrt`. -/
theorem natSqrt_eq (n : ℕ) : natSqrt n = Nat.sqrt n := by
  obtain ⟨h1, h2⟩ := sqrtAux_spec n 0 n (by simp) (by nlinarith)
  have ha : natSqrt n ≤ Nat.sqrt n := Nat.le_sqrt.mpr h1
  have hb : Nat.sqrt n < natSqrt n + 1 := Nat.sqrt_lt.mpr h2
  omega

/-- The integer square root agrees with Mathlib's `Int.sqrt`. -/
theorem intSqrt_eq_sqrt (x : ℤ) : intSqrt x = Int.sqrt x := by
  unfold intSqrt Int.sqrt
  rw [natSqrt_eq]

/-! ## Claim C7: characterization of `NewProofFromBytes` -/

/-- Claim C7: `NewProofFromBytes` returns a format error and no proof exactly
when the number of byte parts differs from 11 or some part is empty; otherwise
it decodes each part as an unsigned big-endian integer into the corresponding
field in the fixed order, performing no range, coprimality, or algebraic
validation (the second part holds for arbitrary non-empty byte parts). -/
theorem claim_C7 :
    (∀ bzs : List (List ℕ),
      NewProofFromBytes bzs = .errored ↔ (bzs.length ≠ 11 ∨ [] ∈ bzs)) ∧
    (∀ b0 b1 b2 b3 b4 b5 b6 b7 b8 b9 b10 : List ℕ,
      b0 ≠ [] → b1 ≠ [] → b2 ≠ [] → b3 ≠ [] → b4 ≠ [] → b5 ≠ [] → b6 ≠ [] →
      b7 ≠ [] → b8 ≠ [] → b9 ≠ [] → b10 ≠ [] →
      NewProofFromBytes [b0, b1, b2, b3, b4, b5, b6, b7, b8, b9, b10]
        = .ok ⟨some (setBytesZ b0), some (setBytesZ b1), some (setBytesZ b2),
               some (setBytesZ b3), some (setBytesZ b4), some (setBytesZ b5),
               some (setBytesZ b6), some (setBytesZ b7), some (setBytesZ b8),
               some (setBytesZ b9), some (setBytesZ b10)⟩) := by
  have hok : ∀ b0 b1 b2 b3 b4 b5 b6 b7 b8 b9 b10 : List ℕ,
      NonEmptyMultiBytes [b0, b1, b2, b3, b4, b5, b6, b7, b8, b9, b10]
        ProofFacBytesParts = true →
      NewProofFromBytes [b0, b1, b2, b3, b4, b5, b6, b7, b8, b9, b10]
        = .ok ⟨some (setBytesZ b0), some (setBytesZ b1), some (setBytesZ b2),
               some (setBytesZ b3), some (setBytesZ b4), some (setBytesZ b5),
               some (setBytesZ b6), some (setBytesZ b7), some (setBytesZ b8),
               some (setBytesZ b9), some (setBytesZ b10)⟩ := by
    intro b0 b1 b2 b3 b4 b5 b6 b7 b8 b9 b10 hg
    unfold NewProofFromBytes
    rw [if_pos hg]
  constructor
  · intro bzs
    by_cases hg : NonEmptyMultiBytes bzs ProofFacBytesParts = true
    · obtain ⟨hlen, hmem⟩ := (nonEmptyMultiBytes_iff bzs _).mp hg
      obtain ⟨b0, b1, b2, b3, b4, b5, b6, b7, b8, b9, b10, rfl⟩ :=
        list_shape_eleven bzs hlen
      rw [hok b0 b1 b2 b3 b4 b5 b6 b7 b8 b9 b10 hg]
      constructor
      · intro hE
        exact GoResult.noConfusion hE
      · intro hr
        rcases hr with hr | hr
        · exact absurd hlen hr
        · exact absurd hr hmem
    · have hE : NewProofFromBytes bzs = .errored := by
        unfold NewProofFromBytes
        rw [if_neg hg]
      rw [hE]
      have := (not_iff_not.mpr (nonEmptyMultiBytes_iff bzs ProofFacBytesParts)).mp
        (by simpa using hg)
      constructor
      · intro _
        by_contra hno
        push_neg at hno
        exact this ⟨hno.1, hno.2⟩
      · intro _
        rfl
  · intro b0 b1 b2 b3 b4 b5 b6 b7 b8 b9 b10 h0 h1 h2 h3 h4 h5 h6 h7 h8 h9 h10
    refine hok b0 b1 b2 b3 b4 b5 b6 b7 b8 b9 b10 ?_
    refine (nonEmptyMultiBytes_iff _ _).mpr ⟨rfl, ?_⟩
    intro hmem
    simp only [List.mem_cons, List.not_mem_nil, or_false] at hmem
    rcases hmem with h | h | h | h | h | h | h | h | h | h | h <;> simp_all

/-- Witness for C7: eleven non-empty single-byte parts decode in order with
no further validation (the decoded values need satisfy no range condition). -/
theorem claim_C7_witness :
    NewProofFromBytes [[2], [1], [1], [1], [1], [1], [1], [1], [1], [1], [1]]
      = .ok ⟨some 2, some 1, some 1, some 1, some 1, some 1, some 1, some 1,
             some 1, some 1, some 1⟩ :=
  claim_C7.2 [2] [1] [1] [1] [1] [1] [1] [1] [1] [1] [1]
    (by decide) (by decide) (by decide) (by decide) (by decide) (by decide)
    (by decide) (by decide) (by decide) (by decide) (by decide)

/-! ## Claim C6: serialization round-trip -/

/-- All eleven field values, tested non-negative. -/
def FacVals.allNonneg (v : FacVals) : Bool :=
  decide (0 ≤ v.P) && decide (0 ≤ v.Q) && decide (0 ≤ v.A) &&
    decide (0 ≤ v.B) && decide (0 ≤ v.T) && decide (0 ≤ v.Sigma) &&
    decide (0 ≤ v.Z1) && decide (0 ≤ v.Z2) && decide (0 ≤ v.W1) &&
    decide (0 ≤ v.W2) && decide (0 ≤ v.V)

/-- Byte parts of a proof whose `V` field decodes to `0`: a constructed proof
with non-negative fields on which the round-trip of claim C6 fails. -/
def c6parts : List (List ℕ) :=
  [[1], [1], [1], [1], [1], [1], [1], [1], [1], [1], [0]]

/-- Claim C6, amended: the round-trip holds for proofs whose eleven integer
fields are strictly positive (for "non-negative" as originally stated it
fails, because a zero field serializes to an empty byte array, which
`NewProofFromBytes` rejects — see the counterexample): `Bytes()` succeeds,
`NewProofFromBytes` on it reconstructs field-for-field-equal integers, and
`Bytes()` of the reconstruction is byte-identical. -/
theorem claim_C6 (pv : FacVals) (hP : 0 < pv.P) (hQ : 0 < pv.Q)
    (hA : 0 < pv.A) (hB : 0 < pv.B) (hT : 0 < pv.T) (hSigma : 0 < pv.Sigma)
    (hZ1 : 0 < pv.Z1) (hZ2 : 0 < pv.Z2) (hW1 : 0 < pv.W1) (hW2 : 0 < pv.W2)
    (hV : 0 < pv.V) :
    ∃ bl, pv.toProofFac.Bytes = some bl ∧
      NewProofFromBytes bl = .ok pv.toProofFac ∧
      (NewProofFromBytes bl).toOption.bind ProofFac.Bytes = some bl := by
  have hbytes : pv.toProofFac.Bytes
      = some [intToBytes pv.P, intToBytes pv.Q, intToBytes pv.A,
              intToBytes pv.B, intToBytes pv.T, intToBytes pv.Sigma,
              intToBytes pv.Z1, intToBytes pv.Z2, intToBytes pv.W1,
              intToBytes pv.W2, intToBytes pv.V] := rfl
  have hne : ∀ x : ℤ, 0 < x → intToBytes x ≠ [] := by
    intro x hx
    exact natToBytes_ne_nil (Int.natAbs_pos.mpr (ne_of_gt hx))
  have hparse : NewProofFromBytes
      [intToBytes pv.P, intToBytes pv.Q, intToBytes pv.A, intToBytes pv.B,
       intToBytes pv.T, intToBytes pv.Sigma, intToBytes pv.Z1,
       intToBytes pv.Z2, intToBytes pv.W1, intToBytes pv.W2, intToBytes pv.V]
      = .ok pv.toProofFac := by
    rw [claim_C7.2 _ _ _ _ _ _ _ _ _ _ _ (hne _ hP) (hne _ hQ) (hne _ hA)
      (hne _ hB) (hne _ hT) (hne _ hSigma) (hne _ hZ1) (hne _ hZ2) (hne _ hW1)
      (hne _ hW2) (hne _ hV)]
    rw [setBytesZ_intToBytes hP.le, setBytesZ_intToBytes hQ.le,
      setBytesZ_intToBytes hA.le, setBytesZ_intToBytes hB.le,
      setBytesZ_intToBytes hT.le, setBytesZ_intToBytes hSigma.le,
      setBytesZ_intToBytes hZ1.le, setBytesZ_intToBytes hZ2.le,
      setBytesZ_intToBytes hW1.le, setBytesZ_intToBytes hW2.le,
      setBytesZ_intToBytes hV.le]
    rfl
  refine ⟨_, hbytes, hparse, ?_⟩
  rw [hparse]
  exact hbytes

/-- Witness for C6 at a proof with all fields `1`. -/
theorem claim_C6_witness :
    ∃ bl, (FacVals.mk 1 1 1 1 1 1 1 1 1 1 1).toProofFac.Bytes = some bl ∧
      NewProofFromBytes bl = .ok (FacVals.mk 1 1 1 1 1 1 1 1 1 1 1).toProofFac ∧
      (NewProofFromBytes bl).toOption.bind ProofFac.Bytes = some bl :=
  claim_C6 (FacVals.mk 1 1 1 1 1 1 1 1 1 1 1) (by decide) (by decide)
    (by decide) (by decide) (by decide) (by decide) (by decide) (by decide)
    (by decide) (by decide) (by decide)

/-- Counterexample to C6 as stated: the proof constructed from `c6parts` is
valid (construction succeeds) and all its integer fields are non-negative
(`V = 0`), yet `NewProofFromBytes (proof.Bytes())` fails, because `Bytes()`
encodes the zero field as an empty byte array. -/
theorem claim_C6_counterexample :
    (NewProofFromBytes c6parts).isOk = true ∧
    ((NewProofFromBytes c6parts).toOption.bind ProofFac.vals).map
        FacVals.allNonneg = some true ∧
    ((NewProofFromBytes c6parts).toOption.bind ProofFac.Bytes).map
        (fun bl => (NewProofFromBytes bl).isOk) = some false := by
  refine ⟨by decide, by decide, by decide⟩

/-! ## Claim C3: the side checks of `ProofFac.Verify` -/

/-- Claim C3: on a structurally complete proof with positive `N0, NCap`,
`Verify` returns true exactly when every one of the stated interval-membership
checks (`P, Q, A, B, T` in `[0, NCap)`; `Sigma` in `[0, l*N0*NCap)`;
`W1, W2` in `[0, 2*l*q*NCap)`; `V` in `[0, 2*l*q*N0*NCap)`; `Z1, Z2` in
`[0, l*q*sqrt N0)`), every one of the five coprimality checks against `NCap`,
and the algebraic equality checks hold — so the failure of any single
interval or coprimality check forces `Verify` to return false regardless of
the algebraic equality checks. -/
theorem claim_C3 (eFn : ℤ → List ℤ → ℕ) (q N0 NCap s t : ℤ) (pv : FacVals)
    (hN0 : 0 < N0) (hNCap : 0 < NCap) :
    ProofFac.Verify eFn (some pv.toProofFac) (some q) (some N0) (some NCap)
        (some s) (some t) = true ↔
      ((0 ≤ pv.P ∧ pv.P < NCap) ∧ (0 ≤ pv.Q ∧ pv.Q < NCap) ∧
       (0 ≤ pv.A ∧ pv.A < NCap) ∧ (0 ≤ pv.B ∧ pv.B < NCap) ∧
       (0 ≤ pv.T ∧ pv.T < NCap) ∧
       (0 ≤ pv.Sigma ∧ pv.Sigma < rangeParameter * N0 * NCap) ∧
       (0 ≤ pv.W1 ∧ pv.W1 < 2 * rangeParameter * q * NCap) ∧
       (0 ≤ pv.W2 ∧ pv.W2 < 2 * rangeParameter * q * NCap) ∧
       (0 ≤ pv.V ∧ pv.V < 2 * rangeParameter * q * N0 * NCap) ∧
       (0 ≤ pv.Z1 ∧ pv.Z1 < rangeParameter * q * intSqrt N0) ∧
       (0 ≤ pv.Z2 ∧ pv.Z2 < rangeParameter * q * intSqrt N0) ∧
       Int.gcd pv.P NCap = 1 ∧ Int.gcd pv.Q NCap = 1 ∧
       Int.gcd pv.A NCap = 1 ∧ Int.gcd pv.B NCap = 1 ∧
       Int.gcd pv.T NCap = 1 ∧
       facAlgebraic eFn q N0 NCap s t pv = true) := by
  have h1 : ProofFac.Verify eFn (some pv.toProofFac) (some q) (some N0)
      (some NCap) (some s) (some t) = verifyCore eFn q N0 NCap s t pv := by
    show (if N0 ≤ 0 then false
      else if NCap ≤ 0 then false
      else verifyCore eFn q N0 NCap s t pv) = _
    rw [if_neg (not_le.mpr hN0), if_neg (not_le.mpr hNCap)]
  rw [h1]
  unfold verifyCore
  simp only [IsInInterval, Bool.and_eq_true, decide_eq_true_eq]
  have e1 : rangeParameter * NCap * N0 = rangeParameter * N0 * NCap := by ring
  have e2 : 2 * (rangeParameter * NCap * q) = 2 * rangeParameter * q * NCap := by
    ring
  have e3 : 2 * (rangeParameter * N0 * NCap * q)
      = 2 * rangeParameter * q * N0 * NCap := by ring
  rw [e1, e2, e3]
  constructor
  · intro h
    obtain ⟨⟨⟨⟨⟨⟨⟨⟨⟨⟨⟨⟨⟨⟨⟨⟨hP, hQ⟩, hA⟩, hB⟩, hT⟩, hSig⟩, gP⟩, gQ⟩, gA⟩,
      gB⟩, gT⟩, hW1⟩, hW2⟩, hV⟩, hZ1⟩, hZ2⟩, halg⟩ := h
    exact ⟨hP, hQ, hA, hB, hT, hSig, hW1, hW2, hV, hZ1, hZ2, gP, gQ, gA, gB,
      gT, halg⟩
  · intro h
    obtain ⟨hP, hQ, hA, hB, hT, hSig, hW1, hW2, hV, hZ1, hZ2, gP, gQ, gA,
      gB, gT, halg⟩ := h
    exact ⟨⟨⟨⟨⟨⟨⟨⟨⟨⟨⟨⟨⟨⟨⟨⟨hP, hQ⟩, hA⟩, hB⟩, hT⟩, hSig⟩, gP⟩, gQ⟩, gA⟩,
      gB⟩, gT⟩, hW1⟩, hW2⟩, hV⟩, hZ1⟩, hZ2⟩, halg⟩

/-- Witness for C3 at a concrete input (the all-zero proof against the
trivial parameters, on which both sides of the equivalence hold). -/
theorem claim_C3_witness :
    ProofFac.Verify eFnZero (some (FacVals.mk 0 0 0 0 0 0 0 0 0 0 0).toProofFac)
      (some 1) (some 1) (some 1) (some 1) (some 1) = true :=
  (claim_C3 eFnZero 1 1 1 1 1 (FacVals.mk 0 0 0 0 0 0 0 0 0 0 0)
    (by norm_num) (by norm_num)).mpr (by decide)

/-! ## Helper lemmas for the completeness argument -/

/-- Reduction modulo `n` is a congruence identity. -/
theorem emod_modEq (x n : ℤ) : x % n ≡ x [ZMOD n] :=
  Int.emod_emod_of_dvd x dvd_rfl

/-- A reduced Pedersen commitment is congruent to its unreduced value. -/
theorem modEq_commit (n sB tB : ℤ) (a b : ℕ) :
    sB ^ a % n * (tB ^ b % n) % n ≡ sB ^ a * tB ^ b [ZMOD n] :=
  (emod_modEq _ _).trans ((emod_modEq _ _).mul (emod_modEq _ _))

/-- A Euclidean remainder by a positive modulus lies in `[0, n)`. -/
theorem IsInInterval_emod (a : ℤ) {n : ℤ} (hn : 0 < n) :
    IsInInterval (a % n) n = true := by
  unfold IsInInterval
  simp only [Bool.and_eq_true, decide_eq_true_eq]
  exact ⟨Int.emod_nonneg a (ne_of_gt hn), Int.emod_lt_of_pos a hn⟩

/-- Interval membership from its two bounds. -/
theorem IsInInterval_of {x b : ℤ} (h1 : 0 ≤ x) (h2 : x < b) :
    IsInInterval x b = true := by
  unfold IsInInterval
  simp only [Bool.and_eq_true, decide_eq_true_eq]
  exact ⟨h1, h2⟩

/-- A reduced product of powers of two residues coprime to the modulus is
itself coprime to the modulus. -/
theorem gcd_commit_one {n sB tB : ℤ} (hs : Int.gcd sB n = 1)
    (ht : Int.gcd tB n = 1) (a b : ℕ) :
    Int.gcd (sB ^ a % n * (tB ^ b % n) % n) n = 1 := by
  rw [← Int.isCoprime_iff_gcd_eq_one] at hs ht ⊢
  have h1 : sB ^ a % n * (tB ^ b % n) % n = sB ^ a * tB ^ b % n := by
    rw [← Int.mul_emod]
  have hco : IsCoprime (sB ^ a * tB ^ b) n := (hs.pow_left).mul_left ht.pow_left
  rw [h1, Int.emod_def]
  have h2 := hco.add_mul_left_left (-(sB ^ a * tB ^ b / n))
  rw [mul_neg, ← sub_eq_add_neg] at h2
  exact h2

/-- `Int.toNat` of a response `e * a + b` with non-negative `a, b`. -/
theorem toNat_linComb {e : ℕ} {a b : ℤ} (ha : 0 ≤ a) (hb : 0 ≤ b) :
    ((e : ℤ) * a + b).toNat = e * a.toNat + b.toNat := by
  have hcast : ((e * a.toNat + b.toNat : ℕ) : ℤ) = (e : ℤ) * a + b := by
    push_cast [Int.toNat_of_nonneg ha, Int.toNat_of_nonneg hb]
    ring
  rw [← hcast, Int.toNat_natCast]

/-- A response `e * m + X` built from a challenge `e ≤ qq - 1`, a secret
`m < L` and a mask `X < L * qq` stays below the verifier's doubled bound. -/
theorem response_bound {e qq m L X : ℤ} (he : e ≤ qq - 1) (he0 : 0 ≤ e)
    (hm0 : 0 ≤ m) (hmU : m < L) (hx0 : 0 ≤ X) (hxU : X < L * qq)
    (hL : 0 < L) (hq : 1 ≤ qq) : e * m + X < 2 * (L * qq) := by
  have t1 : e * m ≤ (qq - 1) * m := mul_le_mul_of_nonneg_right he hm0
  have t2 : (qq - 1) * m ≤ (qq - 1) * (L - 1) :=
    mul_le_mul_of_nonneg_left (by omega) (by omega)
  nlinarith

/-- The first two equality checks of the verifier hold on honest responses:
`sB^(e*a+c) * tB^(e*b+d) = (sB^c tB^d) * (sB^a tB^b)^e` modulo `n`, stated on
the reduced values actually compared by the code. -/
theorem commit_check (n sB tB : ℤ) (a b c d e : ℕ) :
    sB ^ (e * a + c) % n * (tB ^ (e * b + d) % n) % n
      = (sB ^ c % n * (tB ^ d % n) % n)
          * ((sB ^ a % n * (tB ^ b % n) % n) ^ e % n) % n := by
  have l1 : sB ^ (e * a + c) % n * (tB ^ (e * b + d) % n)
      ≡ sB ^ (e * a + c) * tB ^ (e * b + d) [ZMOD n] :=
    (emod_modEq _ _).mul (emod_modEq _ _)
  have r1 : (sB ^ c % n * (tB ^ d % n) % n)
        * ((sB ^ a % n * (tB ^ b % n) % n) ^ e % n)
      ≡ sB ^ c * tB ^ d * (sB ^ a * tB ^ b) ^ e [ZMOD n] :=
    (modEq_commit n sB tB c d).mul
      ((emod_modEq _ _).trans (Int.ModEq.pow e (modEq_commit n sB tB a b)))
  have hraw : sB ^ (e * a + c) * tB ^ (e * b + d)
      = sB ^ c * tB ^ d * (sB ^ a * tB ^ b) ^ e := by ring
  have r2 : sB ^ (e * a + c) * tB ^ (e * b + d)
      ≡ (sB ^ c % n * (tB ^ d % n) % n)
          * ((sB ^ a % n * (tB ^ b % n) % n) ^ e % n) [ZMOD n] := by
    rw [hraw]
    exact r1.symm
  exact l1.trans r2

/-- The third equality check of the verifier holds on honest responses, given
the two exponent identities that encode `N0 = N0p * N0q` and the definition
of the response `v`. -/
theorem third_check (n sB tB : ℤ) (pn qn an nn sgn rn N0n vn e : ℕ)
    (hsplit : N0n = pn * qn)
    (hts : nn * (e * pn + an) + vn = nn * an + rn + sgn * e) :
    (sB ^ qn % n * (tB ^ nn % n) % n) ^ (e * pn + an) % n * (tB ^ vn % n) % n
      = ((sB ^ qn % n * (tB ^ nn % n) % n) ^ an % n * (tB ^ rn % n) % n)
          * ((sB ^ N0n % n * (tB ^ sgn % n) % n) ^ e % n) % n := by
  have hQ : sB ^ qn % n * (tB ^ nn % n) % n ≡ sB ^ qn * tB ^ nn [ZMOD n] :=
    modEq_commit n sB tB qn nn
  have l1 : (sB ^ qn % n * (tB ^ nn % n) % n) ^ (e * pn + an) % n
        * (tB ^ vn % n)
      ≡ (sB ^ qn * tB ^ nn) ^ (e * pn + an) * tB ^ vn [ZMOD n] :=
    ((emod_modEq _ _).trans (Int.ModEq.pow _ hQ)).mul (emod_modEq _ _)
  have r1 : ((sB ^ qn % n * (tB ^ nn % n) % n) ^ an % n * (tB ^ rn % n) % n)
        * ((sB ^ N0n % n * (tB ^ sgn % n) % n) ^ e % n)
      ≡ (sB ^ qn * tB ^ nn) ^ an * tB ^ rn
          * (sB ^ N0n * tB ^ sgn) ^ e [ZMOD n] := by
    have hT : (sB ^ qn % n * (tB ^ nn % n) % n) ^ an % n * (tB ^ rn % n) % n
        ≡ (sB ^ qn * tB ^ nn) ^ an * tB ^ rn [ZMOD n] :=
      (emod_modEq _ _).trans
        ((((emod_modEq _ _).trans (Int.ModEq.pow _ hQ)).mul (emod_modEq _ _)))
    have hR : (sB ^ N0n % n * (tB ^ sgn % n) % n) ^ e % n
        ≡ (sB ^ N0n * tB ^ sgn) ^ e [ZMOD n] :=
      (emod_modEq _ _).trans (Int.ModEq.pow e (modEq_commit n sB tB N0n sgn))
    exact hT.mul hR
  have h1 : qn * (e * pn + an) = qn * an + N0n * e := by
    rw [hsplit]
    ring
  have hraw : (sB ^ qn * tB ^ nn) ^ (e * pn + an) * tB ^ vn
      = (sB ^ qn * tB ^ nn) ^ an * tB ^ rn * (sB ^ N0n * tB ^ sgn) ^ e := by
    calc (sB ^ qn * tB ^ nn) ^ (e * pn + an) * tB ^ vn
        = sB ^ (qn * (e * pn + an)) * tB ^ (nn * (e * pn + an) + vn) := by
          ring
      _ = sB ^ (qn * an + N0n * e) * tB ^ (nn * an + rn + sgn * e) := by
          rw [h1, hts]
      _ = (sB ^ qn * tB ^ nn) ^ an * tB ^ rn * (sB ^ N0n * tB ^ sgn) ^ e := by
          ring
  have r2 : (sB ^ qn * tB ^ nn) ^ (e * pn + an) * tB ^ vn
      ≡ ((sB ^ qn % n * (tB ^ nn % n) % n) ^ an % n * (tB ^ rn % n) % n)
          * ((sB ^ N0n % n * (tB ^ sgn % n) % n) ^ e % n) [ZMOD n] := by
    rw [hraw]
    exact r1.symm
  exact l1.trans r2

/-! ## The honest factorization proof and its construction -/

/-- The proof value produced by an honest run of `NewProof` on the given
inputs and sampled values, spelled out field by field (the commitments
reduced mod `NCap`, the challenge over the hashed tuple, the unreduced
responses). -/
def facHonestVals (eFn : ℤ → List ℤ → ℕ)
    (q N0 NCap s t N0p N0q alpha beta mu nu sigma r x y : ℤ) : FacVals :=
  let P := s ^ N0p.toNat % NCap * (t ^ mu.toNat % NCap) % NCap
  let Q := s ^ N0q.toNat % NCap * (t ^ nu.toNat % NCap) % NCap
  let A := s ^ alpha.toNat % NCap * (t ^ x.toNat % NCap) % NCap
  let B := s ^ beta.toNat % NCap * (t ^ y.toNat % NCap) % NCap
  let T := Q ^ alpha.toNat % NCap * (t ^ r.toNat % NCap) % NCap
  let e : ℕ := eFn q [N0, NCap, s, t, P, Q, A, B, T, sigma]
  ⟨P, Q, A, B, T, sigma, (e : ℤ) * N0p + alpha, (e : ℤ) * N0q + beta,
   (e : ℤ) * mu + x, (e : ℤ) * nu + y, (e : ℤ) * (sigma - nu * N0p) + r⟩

/-- On non-negative numeric inputs, `newProofCore` succeeds and returns
exactly the honest proof value. -/
theorem newProofCore_eval (eFn : ℤ → List ℤ → ℕ)
    (q N0 NCap s t N0p N0q alpha beta mu nu sigma r x y : ℤ)
    (hN0 : 0 ≤ N0) (hNCap : ¬NCap = 0) (hN0p : 0 ≤ N0p) (hN0q : 0 ≤ N0q)
    (halpha : 0 ≤ alpha) (hbeta : 0 ≤ beta) (hmu : 0 ≤ mu) (hnu : 0 ≤ nu)
    (hr : 0 ≤ r) (hx : 0 ≤ x) (hy : 0 ≤ y) :
    newProofCore eFn q N0 NCap s t N0p N0q alpha beta mu nu sigma r x y
      = .ok (facHonestVals eFn q N0 NCap s t N0p N0q
          alpha beta mu nu sigma r x y).toProofFac := by
  unfold newProofCore
  rw [if_neg (not_lt.mpr hN0)]
  simp only [commit_eval _ _ hNCap hN0p hmu, commit_eval _ _ hNCap hN0q hnu,
    commit_eval _ _ hNCap halpha hx, commit_eval _ _ hNCap hbeta hy,
    commit_eval _ _ hNCap halpha hr, Option.bind_eq_bind, Option.some_bind]
  rfl

/-- Modelled from the spec: the sampled values of one honest run of
`NewProof` lie in the intervals prescribed in section 4.3 step 3, and `r` is
coprime to its sampling bound. -/
def HonestFacSamples (q N0 NCap alpha beta mu nu sigma r x y : ℤ) : Bool :=
  decide (0 ≤ alpha) && decide (alpha < rangeParameter * q * intSqrt N0) &&
  decide (0 ≤ beta) && decide (beta < rangeParameter * q * intSqrt N0) &&
  decide (0 ≤ mu) && decide (mu < rangeParameter * NCap) &&
  decide (0 ≤ nu) && decide (nu < rangeParameter * NCap) &&
  decide (0 ≤ sigma) && decide (sigma < rangeParameter * NCap * N0) &&
  decide (0 ≤ r) && decide (r < rangeParameter * NCap * N0 * q) &&
  decide (Int.gcd r (rangeParameter * NCap * N0 * q) = 1) &&
  decide (0 ≤ x) && decide (x < rangeParameter * NCap * q) &&
  decide (0 ≤ y) && decide (y < rangeParameter * NCap * q)

/-- Challenge of an honest `NewProof` run: the challenge function applied to
the hashed tuple `(N0, NCap, s, t, P, Q, A, B, T, sigma)` over the honest
commitments. -/
def facHonestE (eFn : ℤ → List ℤ → ℕ)
    (q N0 NCap s t N0p N0q alpha beta mu nu sigma r x y : ℤ) : ℕ :=
  eFn q [N0, NCap, s, t,
    s ^ N0p.toNat % NCap * (t ^ mu.toNat % NCap) % NCap,
    s ^ N0q.toNat % NCap * (t ^ nu.toNat % NCap) % NCap,
    s ^ alpha.toNat % NCap * (t ^ x.toNat % NCap) % NCap,
    s ^ beta.toNat % NCap * (t ^ y.toNat % NCap) % NCap,
    (s ^ N0q.toNat % NCap * (t ^ nu.toNat % NCap) % NCap) ^ alpha.toNat % NCap
      * (t ^ r.toNat % NCap) % NCap,
    sigma]

/-! ## Claim C1: completeness of the factorization proof -/

set_option maxHeartbeats 1600000 in
/-- Claim C1, amended.  For genuine Pedersen bases (`s, t` coprime to
`NCap`), a factored modulus `N0 = N0p * N0q` with positive factors, any
challenge function whose values lie in `[0, q)`, and an honest run of the
sampling, `Verify` accepts the proof produced by `NewProof` *provided the
unreduced responses stay inside the verifier's windows*: `z1, z2` below
`l*q*sqrt(N0)` and `v` non-negative (hypotheses `hz1, hz2, hv` over the worst
challenge `q - 1`).  The original claim asserts acceptance for *every* honest
run; the counterexample below exhibits an honest run (a large `nu`) whose
response `v` is negative, which `Verify` rejects — completeness of this
protocol is statistical, not perfect. -/
theorem claim_C1 (eFn : ℤ → List ℤ → ℕ)
    (q N0 NCap s t N0p N0q alpha beta mu nu sigma r x y : ℤ)
    (hq : 1 ≤ q) (hN0p : 1 ≤ N0p) (hN0q : 1 ≤ N0q) (hN0eq : N0 = N0p * N0q)
    (hNCap : 1 ≤ NCap) (hsg : Int.gcd s NCap = 1) (htg : Int.gcd t NCap = 1)
    (he : ∀ xs, ((eFn q xs : ℕ) : ℤ) < q)
    (hsam : HonestFacSamples q N0 NCap alpha beta mu nu sigma r x y = true)
    (hz1 : (q - 1) * N0p + alpha < rangeParameter * q * intSqrt N0)
    (hz2 : (q - 1) * N0q + beta < rangeParameter * q * intSqrt N0)
    (hv : (q - 1) * (nu * N0p - sigma) ≤ r) :
    ∃ pf, NewProof eFn (some q) (some N0) (some NCap) (some s) (some t)
        (some N0p) (some N0q) alpha beta mu nu sigma r x y = .ok pf ∧
      ProofFac.Verify eFn (some pf) (some q) (some N0) (some NCap) (some s)
        (some t) = true := by
  simp only [HonestFacSamples, Bool.and_eq_true, decide_eq_true_eq] at hsam
  obtain ⟨⟨⟨⟨⟨⟨⟨⟨⟨⟨⟨⟨⟨⟨⟨⟨ha0, haU⟩, hb0⟩, hbU⟩, hm0⟩, hmU⟩, hn0⟩, hnU⟩,
    hs0⟩, hsU⟩, hr0⟩, hrU⟩, hrg⟩, hx0⟩, hxU⟩, hy0⟩, hyU⟩ := hsam
  have hN0p0 : (0 : ℤ) ≤ N0p := by omega
  have hN0q0 : (0 : ℤ) ≤ N0q := by omega
  have hN0pos : (0 : ℤ) < N0 := by
    rw [hN0eq]
    exact mul_pos (by omega) (by omega)
  have hN00 : (0 : ℤ) ≤ N0 := le_of_lt hN0pos
  have hNCap0 : (0 : ℤ) < NCap := by omega
  have hNCapne : ¬NCap = 0 := by omega
  have hrp : (0 : ℤ) < rangeParameter := by unfold rangeParameter; norm_num
  have hLpos : (0 : ℤ) < rangeParameter * NCap := mul_pos hrp hNCap0
  have hL2pos : (0 : ℤ) < rangeParameter * NCap * N0 := mul_pos hLpos hN0pos
  refine ⟨(facHonestVals eFn q N0 NCap s t N0p N0q
      alpha beta mu nu sigma r x y).toProofFac,
    newProofCore_eval eFn q N0 NCap s t N0p N0q alpha beta mu nu sigma r x y
      hN00 hNCapne hN0p0 hN0q0 ha0 hb0 hm0 hn0 hr0 hx0 hy0, ?_⟩
  show (if N0 ≤ 0 then false
    else if NCap ≤ 0 then false
    else verifyCore eFn q N0 NCap s t
      (facHonestVals eFn q N0 NCap s t N0p N0q alpha beta mu nu sigma r x y))
    = true
  rw [if_neg (not_le.mpr hN0pos), if_neg (not_le.mpr hNCap0)]
  set V := facHonestVals eFn q N0 NCap s t N0p N0q alpha beta mu nu sigma r x y
    with hV
  set En := facHonestE eFn q N0 NCap s t N0p N0q alpha beta mu nu sigma r x y
    with hEn
  have hVP : V.P = s ^ N0p.toNat % NCap * (t ^ mu.toNat % NCap) % NCap := by
    rw [hV]
    rfl
  have hVQ : V.Q = s ^ N0q.toNat % NCap * (t ^ nu.toNat % NCap) % NCap := by
    rw [hV]
    rfl
  have hVA : V.A = s ^ alpha.toNat % NCap * (t ^ x.toNat % NCap) % NCap := by
    rw [hV]
    rfl
  have hVB : V.B = s ^ beta.toNat % NCap * (t ^ y.toNat % NCap) % NCap := by
    rw [hV]
    rfl
  have hVT : V.T = (s ^ N0q.toNat % NCap * (t ^ nu.toNat % NCap) % NCap)
      ^ alpha.toNat % NCap * (t ^ r.toNat % NCap) % NCap := by
    rw [hV]
    rfl
  have hVSig : V.Sigma = sigma := by
    rw [hV]
    rfl
  have hVZ1 : V.Z1 = (En : ℤ) * N0p + alpha := by
    rw [hV, hEn]
    rfl
  have hVZ2 : V.Z2 = (En : ℤ) * N0q + beta := by
    rw [hV, hEn]
    rfl
  have hVW1 : V.W1 = (En : ℤ) * mu + x := by
    rw [hV, hEn]
    rfl
  have hVW2 : V.W2 = (En : ℤ) * nu + y := by
    rw [hV, hEn]
    rfl
  have hVV : V.V = (En : ℤ) * (sigma - nu * N0p) + r := by
    rw [hV, hEn]
    rfl
  have hElt : ((En : ℕ) : ℤ) < q := by
    rw [hEn]
    exact he _
  have hEB : ((En : ℕ) : ℤ) ≤ q - 1 := by omega
  have hE0 : (0 : ℤ) ≤ ((En : ℕ) : ℤ) := Int.natCast_nonneg En
  have gQraw : Int.gcd (s ^ N0q.toNat % NCap * (t ^ nu.toNat % NCap) % NCap)
      NCap = 1 := gcd_commit_one hsg htg _ _
  have hv0 : (0 : ℤ) ≤ (En : ℤ) * (sigma - nu * N0p) + r := by
    by_cases hcase : 0 ≤ sigma - nu * N0p
    · exact add_nonneg (mul_nonneg hE0 hcase) hr0
    · push_neg at hcase
      have t1 : (q - 1) * (sigma - nu * N0p) ≤ (En : ℤ) * (sigma - nu * N0p) :=
        mul_le_mul_of_nonpos_right hEB (le_of_lt hcase)
      have t2 : (q - 1) * (nu * N0p - sigma)
          = -((q - 1) * (sigma - nu * N0p)) := by ring
      linarith only [hv, t1, t2]
  simp only [verifyCore, Bool.and_eq_true, decide_eq_true_eq]
  refine ⟨⟨⟨⟨⟨⟨⟨⟨⟨⟨⟨⟨⟨⟨⟨⟨?_, ?_⟩, ?_⟩, ?_⟩, ?_⟩, ?_⟩, ?_⟩, ?_⟩, ?_⟩, ?_⟩,
    ?_⟩, ?_⟩, ?_⟩, ?_⟩, ?_⟩, ?_⟩, ?_⟩
  · rw [hVP]
    exact IsInInterval_emod _ hNCap0
  · rw [hVQ]
    exact IsInInterval_emod _ hNCap0
  · rw [hVA]
    exact IsInInterval_emod _ hNCap0
  · rw [hVB]
    exact IsInInterval_emod _ hNCap0
  · rw [hVT]
    exact IsInInterval_emod _ hNCap0
  · rw [hVSig]
    exact IsInInterval_of hs0 hsU
  · rw [hVP]
    exact gcd_commit_one hsg htg _ _
  · rw [hVQ]
    exact gcd_commit_one hsg htg _ _
  · rw [hVA]
    exact gcd_commit_one hsg htg _ _
  · rw [hVB]
    exact gcd_commit_one hsg htg _ _
  · rw [hVT]
    exact gcd_commit_one gQraw htg _ _
  · rw [hVW1]
    refine IsInInterval_of (add_nonneg (mul_nonneg hE0 hm0) hx0) ?_
    exact response_bound hEB hE0 hm0 hmU hx0 hxU hLpos hq
  · rw [hVW2]
    refine IsInInterval_of (add_nonneg (mul_nonneg hE0 hn0) hy0) ?_
    exact response_bound hEB hE0 hn0 hnU hy0 hyU hLpos hq
  · rw [hVV]
    refine IsInInterval_of hv0 ?_
    have hnp : (0 : ℤ) ≤ nu * N0p := mul_nonneg hn0 hN0p0
    have step : (En : ℤ) * (sigma - nu * N0p) ≤ (En : ℤ) * sigma :=
      mul_le_mul_of_nonneg_left (by linarith only [hnp]) hE0
    have main : (En : ℤ) * sigma + r < 2 * (rangeParameter * NCap * N0 * q) :=
      response_bound hEB hE0 hs0 hsU hr0 hrU hL2pos hq
    linarith only [step, main]
  · rw [hVZ1]
    refine IsInInterval_of (add_nonneg (mul_nonneg hE0 hN0p0) ha0) ?_
    have t1 : (En : ℤ) * N0p ≤ (q - 1) * N0p :=
      mul_le_mul_of_nonneg_right hEB hN0p0
    linarith only [t1, hz1]
  · rw [hVZ2]
    refine IsInInterval_of (add_nonneg (mul_nonneg hE0 hN0q0) hb0) ?_
    have t1 : (En : ℤ) * N0q ≤ (q - 1) * N0q :=
      mul_le_mul_of_nonneg_right hEB hN0q0
    linarith only [t1, hz2]
  · -- the three algebraic equality checks
    have hfa : facAlgebraic eFn q N0 NCap s t V
        = (decide (s ^ V.Z1.toNat % NCap * (t ^ V.W1.toNat % NCap) % NCap
            = V.A * (V.P
                ^ (eFn q [N0, NCap, s, t, V.P, V.Q, V.A, V.B, V.T, V.Sigma])
              % NCap) % NCap) &&
          decide (s ^ V.Z2.toNat % NCap * (t ^ V.W2.toNat % NCap) % NCap
            = V.B * (V.Q
                ^ (eFn q [N0, NCap, s, t, V.P, V.Q, V.A, V.B, V.T, V.Sigma])
              % NCap) % NCap) &&
          decide (V.Q ^ V.Z1.toNat % NCap * (t ^ V.V.toNat % NCap) % NCap
            = V.T * ((s ^ N0.toNat % NCap * (t ^ V.Sigma.toNat % NCap) % NCap)
                ^ (eFn q [N0, NCap, s, t, V.P, V.Q, V.A, V.B, V.T, V.Sigma])
              % NCap) % NCap)) := rfl
    rw [hfa, hVP, hVQ, hVA, hVB, hVT, hVSig, hVZ1, hVZ2, hVW1, hVW2, hVV]
    have hEnRaw : eFn q [N0, NCap, s, t,
        s ^ N0p.toNat % NCap * (t ^ mu.toNat % NCap) % NCap,
        s ^ N0q.toNat % NCap * (t ^ nu.toNat % NCap) % NCap,
        s ^ alpha.toNat % NCap * (t ^ x.toNat % NCap) % NCap,
        s ^ beta.toNat % NCap * (t ^ y.toNat % NCap) % NCap,
        (s ^ N0q.toNat % NCap * (t ^ nu.toNat % NCap) % NCap) ^ alpha.toNat
          % NCap * (t ^ r.toNat % NCap) % NCap,
        sigma] = En := by
      rw [hEn]
      rfl
    rw [hEnRaw]
    have hsN : N0.toNat = N0p.toNat * N0q.toNat := by
      have hcast : ((N0p.toNat * N0q.toNat : ℕ) : ℤ) = N0 := by
        push_cast [Int.toNat_of_nonneg hN0p0, Int.toNat_of_nonneg hN0q0]
        rw [hN0eq]
      rw [← hcast, Int.toNat_natCast]
    have hts : nu.toNat * (En * N0p.toNat + alpha.toNat)
          + ((En : ℤ) * (sigma - nu * N0p) + r).toNat
        = nu.toNat * alpha.toNat + r.toNat + sigma.toNat * En := by
      have hcast : ((nu.toNat * (En * N0p.toNat + alpha.toNat)
            + ((En : ℤ) * (sigma - nu * N0p) + r).toNat : ℕ) : ℤ)
          = ((nu.toNat * alpha.toNat + r.toNat + sigma.toNat * En : ℕ) : ℤ) := by
        push_cast [Int.toNat_of_nonneg hn0, Int.toNat_of_nonneg ha0,
          Int.toNat_of_nonneg hr0, Int.toNat_of_nonneg hs0,
          Int.toNat_of_nonneg hN0p0, Int.toNat_of_nonneg hv0]
        ring
      exact_mod_cast hcast
    simp only [Bool.and_eq_true, decide_eq_true_eq]
    refine ⟨⟨?_, ?_⟩, ?_⟩
    · rw [toNat_linComb hN0p0 ha0, toNat_linComb hm0 hx0]
      exact commit_check NCap s t N0p.toNat mu.toNat alpha.toNat x.toNat En
    · rw [toNat_linComb hN0q0 hb0, toNat_linComb hn0 hy0]
      exact commit_check NCap s t N0q.toNat nu.toNat beta.toNat y.toNat En
    · rw [toNat_linComb hN0p0 ha0]
      exact third_check NCap s t N0p.toNat N0q.toNat alpha.toNat nu.toNat
        sigma.toNat r.toNat N0.toNat
        (((En : ℤ) * (sigma - nu * N0p) + r).toNat) En hsN hts

/-- Witness for C1 at a concrete honest run (trivial parameters, small
samples) in which the proof verifies. -/
theorem claim_C1_witness :
    ∃ pf, NewProof eFnZero (some 1) (some 1) (some 1) (some 1) (some 1)
        (some 1) (some 1) 0 0 0 0 0 1 0 0 = .ok pf ∧
      ProofFac.Verify eFnZero (some pf) (some 1) (some 1) (some 1) (some 1)
        (some 1) = true :=
  claim_C1 eFnZero 1 1 1 1 1 1 1 0 0 0 0 0 1 0 0 (by norm_num) (by norm_num)
    (by norm_num) (by norm_num) (by norm_num) (by decide) (by decide)
    (fun xs => by show ((0 : ℕ) : ℤ) < 1; decide) (by decide) (by decide)
    (by decide) (by decide)

/-- Counterexample to C1 as stated: an honest run (every sampled value inside
its sampling interval, challenge values inside `[0, q)`) whose response
`v = e * (sigma - nu * N0p) + r` is negative, so the verifier's interval
check on `V` fails and `Verify` returns false on the honestly generated
proof. -/
theorem claim_C1_counterexample :
    ((NewProof eFnMax (some 2) (some 4) (some 1) (some 1) (some 1) (some 2)
        (some 2) 0 0 0 1 0 1 0 0).toOption.map
      (fun pf => ProofFac.Verify eFnMax (some pf) (some 2) (some 4) (some 1)
        (some 1) (some 1))) = some false ∧
    (NewProof eFnMax (some 2) (some 4) (some 1) (some 1) (some 1) (some 2)
        (some 2) 0 0 0 1 0 1 0 0).isOk = true ∧
    HonestFacSamples 2 4 1 0 0 0 1 0 1 0 0 = true ∧
    (4 : ℤ) = 2 * 2 ∧ Int.gcd 1 1 = 1 ∧
    (∀ xs : List ℤ, ((eFnMax 2 xs : ℕ) : ℤ) < 2) := by
  refine ⟨by decide, by decide, by decide, by norm_num, by decide,
    fun xs => by show ((((2 : ℤ) - 1).toNat : ℕ) : ℤ) < 2; decide⟩

end TssSpec
